import Mathlib

/-!
Shallow embedding of the YellowFin optimizer of `main.py` (class `YFOptimizer`).

Tensors (MXNet `NDArray`s) are embedded as lists of reals (`Vec`); the
floating-point arithmetic of the source is embedded as exact real arithmetic.
The external MXNet kernels `sgd_update` / `sgd_mom_update` are modelled from
the spec (§4.3) and the source docstring.  The external numeric root finder
`np.roots` is modelled as an oracle: the list of roots it returned is an
explicit argument of `single_step_mu_lr`, and theorems that depend on the
roots being the actual roots of the cubic take that as a hypothesis
(`isRootListOf`).  Python exceptions are modelled with `Except YFErr`.
-/

abbrev Vec := List ℝ

/-- Sum of the entries of a vector (`mx.ndarray.sum`). -/
def sumList (l : Vec) : ℝ := l.foldr (· + ·) 0

/-- Sum of squares of the entries. -/
def sumSq (g : Vec) : ℝ := sumList (List.zipWith (· * ·) g g)

/-- L2 norm of a vector (`mx.ndarray.norm`). -/
noncomputable def l2norm (g : Vec) : ℝ := Real.sqrt (sumSq g)

/-- Minimum of a nonempty vector (`ndarray.min`); 0 on the empty vector,
which the source never hits. -/
def listMin : Vec → ℝ
  | [] => 0
  | x :: xs => xs.foldl min x

/-- Maximum of a nonempty vector (`ndarray.max`); 0 on the empty vector. -/
def listMax : Vec → ℝ
  | [] => 0
  | x :: xs => xs.foldl max x

/-- Error taxonomy.  `indexError` models the out-of-bounds write that numpy
signals; `numericalInstability` models the failure of `assert root.size == 1`
(the spec's `NumericalInstabilityError`); `degenerateCurvature` is the spec's
`DegenerateCurvatureError` — it is part of the type so that the spec's claims
about it can be stated, but the source has no such guard and never signals it. -/
inductive YFErr
  | indexError
  | numericalInstability
  | degenerateCurvature
deriving DecidableEq

/-- Per-parameter state, `create_state` (source lines 38-45): momentum buffer,
EMA of the gradient, EMA of the squared gradient. -/
structure PState where
  mom : Vec
  grad_avg : Vec
  grad_avg_squared : Vec

/-- The optimizer's global state: constructor attributes (source lines 21-36)
plus the MXNet base-class pieces the source uses (`base_lr`, `wd`,
`rescale_grad`, `clip_gradient`, and the learning-rate multiplier written by
`set_lr_mult`, modelled for the single parameter index in play). -/
structure YF where
  momentum : ℝ
  beta : ℝ
  curv_win_width : ℕ
  zero_bias : Bool
  iter : ℕ
  h_min : ℝ
  h_max : ℝ
  h_window : Vec
  grad_norm_avg : ℝ
  h_avg : ℝ
  dist_to_opt_avg : ℝ
  base_lr : ℝ
  wd : ℝ
  rescale_grad : ℝ
  clip_gradient : Option ℝ
  lr_mult : ℝ

/-- `YFOptimizer.__init__` (source lines 21-36).  Note the source slip kept
verbatim: line 25 hardcodes `self.curv_win_width = 20` (ignoring the
constructor parameter) while line 32 allocates `self._h_window` with the
parameter.  `lr_mult` starts at 1 (MXNet's default multiplier). -/
def initYF (momentum beta : ℝ) (curv_win_width : ℕ) (zero_bias : Bool)
    (base_lr wd rescale_grad : ℝ) (clip_gradient : Option ℝ) : YF :=
  { momentum := momentum
    beta := beta
    curv_win_width := 20
    zero_bias := zero_bias
    iter := 0
    h_min := 0
    h_max := 0
    h_window := List.replicate curv_win_width 0
    grad_norm_avg := 0
    h_avg := 0
    dist_to_opt_avg := 0
    base_lr := base_lr
    wd := wd
    rescale_grad := rescale_grad
    clip_gradient := clip_gradient
    lr_mult := 1 }

/-- `curvature_range` (source lines 47-55): writes `norm(grad)**2` at index
`iter % curv_win_width` of the window, then EMA-updates `h_min`/`h_max` with
the min/max of the first `min(curv_win_width, iter+1)` window entries.
The write is out of bounds (numpy `IndexError`) when the index reaches the
allocated window length. -/
noncomputable def curvature_range (s : YF) (grad : Vec) : Except YFErr (YF × ℝ × ℝ) :=
  let grad_norm := l2norm grad
  let i := s.iter % s.curv_win_width
  if i < s.h_window.length then
    let w := s.h_window.set i (grad_norm ^ 2)
    let valid_end := min s.curv_win_width (s.iter + 1)
    let hmn := s.beta * s.h_min + (1 - s.beta) * listMin (w.take valid_end)
    let hmx := s.beta * s.h_max + (1 - s.beta) * listMax (w.take valid_end)
    .ok ({ s with h_window := w, h_min := hmn, h_max := hmx }, hmn, hmx)
  else .error .indexError

/-- `zero_debias_factor` (source lines 57-60). -/
def zero_debias_factor (s : YF) : ℝ :=
  if s.zero_bias then 1 else 1 - s.beta ^ (s.iter + 1)

/-- `grad_variance` (source lines 62-73): in-place EMA updates of `grad_avg`
and `grad_avg_squared`, then returns
`sum(grad_avg*grad_avg) / -(debias^2) + norm(grad)/debias`.
Result: (new `grad_avg`, new `grad_avg_squared`, returned scalar). -/
noncomputable def grad_variance (s : YF) (grad grad_avg grad_avg_squared : Vec) :
    Vec × Vec × ℝ :=
  let ga := List.zipWith (fun a x => s.beta * a + (1 - s.beta) * x) grad_avg grad
  let gas := List.zipWith (fun a x => s.beta * a + (1 - s.beta) * x * x) grad_avg_squared grad
  let debias_factor := zero_debias_factor s
  let grad_norm := l2norm grad
  let grad_var := sumList (List.zipWith (· * ·) ga ga) / (-(debias_factor ^ 2))
      + grad_norm / debias_factor
  (ga, gas, grad_var)

/-- `dist_to_opt` (source lines 75-82): EMA updates of `grad_norm_avg`,
`h_avg`, `dist_to_opt_avg`, then returns `dist_to_opt_avg / debias`. -/
noncomputable def dist_to_opt (s : YF) (grad : Vec) : YF × ℝ :=
  let grad_norm := l2norm grad
  let gna := s.beta * s.grad_norm_avg + (1 - s.beta) * grad_norm
  let ha := s.beta * s.h_avg + (1 - s.beta) * grad_norm * grad_norm
  let da := s.beta * s.dist_to_opt_avg + (1 - s.beta) * gna / ha
  ({ s with grad_norm_avg := gna, h_avg := ha, dist_to_opt_avg := da },
   da / zero_debias_factor s)

/-- Source line 87: `coef[2] = -(3 + D**2 * h_min**2 / 2.0 / C)`, the
coefficient of `x` in the cubic `-x^3 + 3x^2 + coef2*x + 1` handed to
`np.roots` as `[-1.0, 3.0, coef2, 1.0]`. -/
noncomputable def coef2 (C D h_min : ℝ) : ℝ := -(3 + D ^ 2 * h_min ^ 2 / 2 / C)

/-- The cubic `-x^3 + 3x^2 + p2*x + 1` (numpy coefficient array
`[-1, 3, p2, 1]`) evaluated over ℂ. -/
noncomputable def cubicEval (p2 : ℝ) (x : ℂ) : ℂ :=
  -x ^ 3 + 3 * x ^ 2 + (p2 : ℝ) * x + 1

/-- `roots` is the exact root list (with multiplicity, in some order) of the
cubic with coefficient array `[-1, 3, p2, 1]` — the idealized contract of
`np.roots`. -/
def isRootListOf (p2 : ℝ) (roots : List ℂ) : Prop :=
  ∃ z₁ z₂ z₃, roots = [z₁, z₂, z₃] ∧
    ∀ x : ℂ, cubicEval p2 x = -((x - z₁) * (x - z₂) * (x - z₃))

/-- The root filter of source lines 89-90:
`real(root) > 0 and real(root) < 1 and imag(root) < 1e-5`.
Note the signed — not absolute-value — comparison on the imaginary part. -/
def survivorCond (z : ℂ) : Prop := 0 < z.re ∧ z.re < 1 ∧ z.im < 1e-5

open Classical in
/-- The surviving candidates: the roots list filtered by `survivorCond`
(numpy boolean-mask indexing keeps order). -/
noncomputable def codeSurvivors : List ℂ → List ℂ
  | [] => []
  | z :: rest => if survivorCond z then z :: codeSurvivors rest else codeSurvivors rest

/-- `single_step_mu_lr` (source lines 84-95).  `roots` is the output of the
external `np.roots` call on `[-1, 3, coef2 C D h_min, 1]`.  The
`assert root.size == 1` failure is `numericalInstability`; on success
`mu = max(real(root)^2, ((sqrt(dr)-1)/(sqrt(dr)+1))^2)` with `dr = h_max/h_min`
and `lr = (1 - sqrt(mu))^2 / h_min`. -/
noncomputable def single_step_mu_lr (C D h_min h_max : ℝ) (roots : List ℂ) :
    Except YFErr (ℝ × ℝ) :=
  let _p2 := coef2 C D h_min
  match codeSurvivors roots with
  | [z] =>
    let dr := h_max / h_min
    let mu_t := max (z.re ^ 2) (((Real.sqrt dr - 1) / (Real.sqrt dr + 1)) ^ 2)
    let lr_t := (1 - Real.sqrt mu_t) ^ 2 / h_min
    .ok (mu_t, lr_t)
  | _ => .error .numericalInstability

/-- Modelled from the spec: gradient clipping `clip(x, -c, c)` of the MXNet
kernels (§4.3); `none` means no clipping configured. -/
def applyClip : Option ℝ → ℝ → ℝ
  | none, x => x
  | some c, x => max (-c) (min c x)

/-- Modelled from the spec: the effective gradient
`clip(rescale_grad * grad, clip_gradient)` of §4.3. -/
def effGrad (s : YF) (g : Vec) : Vec :=
  g.map fun x => applyClip s.clip_gradient (s.rescale_grad * x)

/-- Elementwise ternary zip. -/
def zipWith3 (f : ℝ → ℝ → ℝ → ℝ) : Vec → Vec → Vec → Vec
  | a :: as, b :: bs, c :: cs => f a b c :: zipWith3 f as bs cs
  | _, _, _ => []

/-- Modelled from the spec: the external MXNet `sgd_mom_update` kernel per
§4.3 / source docstring lines 9-11:
`state = momentum*state + lr*effective_grad + lr*wd*weight;
weight = weight - state`.  Returns (new weight, new momentum buffer). -/
def sgd_mom_update (s : YF) (w g mom : Vec) (lr momentum : ℝ) : Vec × Vec :=
  let eg := effGrad s g
  let mom' := zipWith3 (fun m e wt => momentum * m + lr * e + lr * s.wd * wt) mom eg w
  (List.zipWith (· - ·) w mom', mom')

/-- Modelled from the spec: the external MXNet `sgd_update` kernel per §4.3:
`weight = weight - lr*effective_grad - lr*wd*weight`. -/
def sgd_update (s : YF) (w g : Vec) (lr : ℝ) : Vec :=
  List.zipWith (fun wt e => wt - lr * e - lr * s.wd * wt) w (effGrad s g)

/-- `after_apply` (source lines 97-104): curvature range, then gradient
variance, then distance to opt, then the tuning solve; finally blends
`momentum := beta*momentum + (1-beta)*mu_t` and
`lr_mult := beta*lr + (1-beta)*lr_t` (`set_lr_mult`).  Returns the new global
state together with the updated `grad_avg` / `grad_avg_squared` tensors. -/
noncomputable def after_apply (s : YF) (grad grad_avg grad_avg_squared : Vec)
    (lr momentum : ℝ) (roots : List ℂ) : Except YFErr (YF × Vec × Vec) :=
  match curvature_range s grad with
  | .error e => .error e
  | .ok (s1, h_min, h_max) =>
    let gv := grad_variance s1 grad grad_avg grad_avg_squared
    let dd := dist_to_opt s1 grad
    match single_step_mu_lr gv.2.2 dd.2 h_min h_max roots with
    | .error e => .error e
    | .ok (mu_t, lr_t) =>
      .ok ({ dd.1 with
              momentum := dd.1.beta * momentum + (1 - dd.1.beta) * mu_t,
              lr_mult := dd.1.beta * lr + (1 - dd.1.beta) * lr_t },
           gv.1, gv.2.1)

/-- `update` (source lines 106-126).  `lr` is MXNet's `_get_lr`
(`base_lr * lr_mult`, modelled from the base class); the momentum kwarg is
passed only when `self.momentum > 0` (kernel default 0 otherwise).  With a
state tuple: `sgd_mom_update` on the weight/momentum buffer first, then
`after_apply`; without: plain `sgd_update` and no tuning.  `iter` is
incremented last. -/
noncomputable def update (s : YF) (w g : Vec) (p : Option PState) (roots : List ℂ) :
    Except YFErr (YF × Vec × Option PState) :=
  let lr := s.base_lr * s.lr_mult
  let momKw := if 0 < s.momentum then s.momentum else 0
  match p with
  | some ps =>
    let sm := sgd_mom_update s w g ps.mom lr momKw
    match after_apply s g ps.grad_avg ps.grad_avg_squared lr s.momentum roots with
    | .error e => .error e
    | .ok (s1, ga, gas) =>
      .ok ({ s1 with iter := s1.iter + 1 }, sm.1,
           some { mom := sm.2, grad_avg := ga, grad_avg_squared := gas })
  | none => .ok ({ s with iter := s.iter + 1 }, sgd_update s w g lr, none)

/-- Iterated `update` over a list of (gradient, `np.roots` output) pairs,
threading weight and parameter state. -/
noncomputable def runUpdates : YF → Vec → Option PState → List (Vec × List ℂ) →
    Except YFErr (YF × Vec × Option PState)
  | s, w, p, [] => .ok (s, w, p)
  | s, w, p, (g, r) :: rest =>
    match update s w g p r with
    | .ok (s', w', p') => runUpdates s' w' p' rest
    | .error e => .error e

/-! ### Helper lemmas about the root filter -/

lemma mem_codeSurvivors {z : ℂ} : ∀ {l : List ℂ},
    z ∈ codeSurvivors l ↔ z ∈ l ∧ survivorCond z
  | [] => by simp [codeSurvivors]
  | w :: rest => by
    by_cases h : survivorCond w
    · rw [codeSurvivors, if_pos h]
      simp only [List.mem_cons, mem_codeSurvivors (l := rest)]
      constructor
      · rintro (rfl | ⟨hm, hc⟩)
        · exact ⟨Or.inl rfl, h⟩
        · exact ⟨Or.inr hm, hc⟩
      · rintro ⟨rfl | hm, hc⟩
        · exact Or.inl rfl
        · exact Or.inr ⟨hm, hc⟩
    · rw [codeSurvivors, if_neg h]
      rw [mem_codeSurvivors (l := rest)]
      simp only [List.mem_cons]
      constructor
      · rintro ⟨hm, hc⟩; exact ⟨Or.inr hm, hc⟩
      · rintro ⟨rfl | hm, hc⟩
        · exact absurd hc h
        · exact ⟨hm, hc⟩

lemma codeSurvivors_nil : codeSurvivors [] = [] := by rw [codeSurvivors]

/-! ### Concrete inputs and states used by the witnesses.

One genuine optimizer step: `beta = 1/2`, window width 1, `base_lr = 1`,
`wd = 0`, weight `[1]`, gradient `[8/27]`.  The step produces
`h_min = h_max = 32/729`, `C = 200/729`, `D = 27/16`, so the cubic handed to
`np.roots` is `-x^3 + 3x^2 - (301/100)x + 1`, whose exact roots are
`4/5` and `11/10 ± (1/5)i` — `R0c` is that authentic root list. -/

noncomputable def s0c : YF := initYF 0 (1/2) 1 true 1 0 1 none

def p0c : PState := { mom := [0], grad_avg := [0], grad_avg_squared := [0] }

noncomputable def R0c : List ℂ := [⟨4/5, 0⟩, ⟨11/10, 1/5⟩, ⟨11/10, -1/5⟩]

noncomputable def s1midc : YF :=
  { s0c with h_window := [64/729], h_min := 32/729, h_max := 32/729 }

noncomputable def s2midc : YF :=
  { s1midc with grad_norm_avg := 4/27, h_avg := 32/729, dist_to_opt_avg := 27/16 }

noncomputable def s3midc : YF :=
  { s2midc with momentum := 8/25, lr_mult := 1529/1600 }

noncomputable def s1c : YF := { s3midc with iter := 1 }

lemma sqrt_16_25 : Real.sqrt (16/25) = 4/5 := by
  rw [show (16/25 : ℝ) = (4/5)^2 by norm_num, Real.sqrt_sq (by norm_num)]

lemma sqrt_64_729 : Real.sqrt (64/729) = 8/27 := by
  rw [show (64/729 : ℝ) = (8/27)^2 by norm_num, Real.sqrt_sq (by norm_num)]

lemma norm_g0 : l2norm [(8/27 : ℝ)] = 8/27 := by
  have h : sumSq [(8/27 : ℝ)] = 64/729 := by norm_num [sumSq, sumList]
  rw [l2norm, h, sqrt_64_729]

lemma survR0c : codeSurvivors R0c = [⟨4/5, 0⟩] := by
  simp only [R0c, codeSurvivors]
  rw [if_pos, if_neg, if_neg]
  · simp [survivorCond]; norm_num
  · simp [survivorCond]; norm_num
  · constructor <;> norm_num [survivorCond]

/-! ### Evaluation of one concrete optimizer step -/

lemma curvEval : curvature_range s0c [8/27] = .ok (s1midc, 32/729, 32/729) := by
  rw [curvature_range, norm_g0]
  rw [if_pos (by simp [s0c, initYF])]
  simp only [s0c, initYF, s1midc]
  norm_num [listMin, listMax, List.set, List.take]

lemma gvEval : grad_variance s1midc [8/27] [0] [0] = ([4/27], [32/729], 200/729) := by
  rw [grad_variance, norm_g0]
  have hz : zero_debias_factor s1midc = 1 := by
    rw [zero_debias_factor, if_pos]
    simp [s1midc, s0c, initYF]
  rw [hz]
  simp only [s1midc, s0c, initYF]
  norm_num [sumList]

lemma distEval : dist_to_opt s1midc [8/27] = (s2midc, 27/16) := by
  rw [dist_to_opt, norm_g0]
  have hz : zero_debias_factor s1midc = 1 := by
    rw [zero_debias_factor, if_pos]
    simp [s1midc, s0c, initYF]
  rw [hz]
  simp only [s1midc, s2midc, s0c, initYF]
  norm_num

lemma solveEval0 :
    single_step_mu_lr (200/729) (27/16) (32/729) (32/729) R0c = .ok (16/25, 729/800) := by
  have hre : ((⟨4/5, 0⟩ : ℂ)).re = 4/5 := rfl
  have hdr : (32/729 : ℝ) / (32/729) = 1 := by norm_num
  have hmu : max ((4/5 : ℝ) ^ 2) (((Real.sqrt 1 - 1) / (Real.sqrt 1 + 1)) ^ 2) = 16/25 := by
    rw [Real.sqrt_one, max_eq_left (by norm_num)]
    norm_num
  have hlr : ((1 : ℝ) - Real.sqrt (16/25)) ^ 2 / (32/729) = 729/800 := by
    rw [sqrt_16_25]; norm_num
  rw [single_step_mu_lr, survR0c]
  simp only [hdr, hre, hmu, hlr]

lemma afterEval :
    after_apply s0c [8/27] [0] [0] 1 0 R0c = .ok (s3midc, [4/27], [32/729]) := by
  rw [after_apply, curvEval]
  simp only [gvEval, distEval, solveEval0]
  simp only [s3midc, s2midc, s1midc, s0c, initYF]
  norm_num

lemma updateEval1 :
    update s0c [1] [8/27] (some p0c) R0c =
      .ok (s1c, [19/27], some { mom := [8/27], grad_avg := [4/27], grad_avg_squared := [32/729] }) := by
  rw [update]
  have hlr : s0c.base_lr * s0c.lr_mult = 1 := by norm_num [s0c, initYF]
  have hmom : (if 0 < s0c.momentum then s0c.momentum else 0) = 0 := by
    rw [if_neg]; norm_num [s0c, initYF]
  have hsm : sgd_mom_update s0c [1] [8/27] p0c.mom 1 0 = ([19/27], [8/27]) := by
    simp only [sgd_mom_update, effGrad, applyClip, zipWith3, p0c, s0c, initYF]
    norm_num [zipWith3]
  have hm0 : s0c.momentum = 0 := by norm_num [s0c, initYF]
  simp only [hlr, hmom, p0c] at hsm ⊢
  rw [hsm, hm0, afterEval]
  simp only [s1c, s3midc, s2midc, s1midc, s0c, initYF]

/-! ### Claim theorems -/

/-- Claim C2: `grad_variance` EMA-updates `grad_avg` and `grad_avg_squared`
elementwise, and returns exactly
`sum(grad_avg ⊙ grad_avg) / -(debias^2) + norm(grad)/debias` computed from the
updated `grad_avg`; the updated `grad_avg_squared` does not appear in the
returned value (last conjunct: the returned scalar is independent of the
`grad_avg_squared` argument). -/
theorem C2_grad_variance_formula (s : YF) (g ga gas gas' : Vec) :
    (grad_variance s g ga gas).1
        = List.zipWith (fun a x => s.beta * a + (1 - s.beta) * x) ga g
  ∧ (grad_variance s g ga gas).2.1
        = List.zipWith (fun a x => s.beta * a + (1 - s.beta) * x * x) gas g
  ∧ (grad_variance s g ga gas).2.2
        = sumList (List.zipWith (· * ·)
              (List.zipWith (fun a x => s.beta * a + (1 - s.beta) * x) ga g)
              (List.zipWith (fun a x => s.beta * a + (1 - s.beta) * x) ga g))
            / (-(zero_debias_factor s ^ 2)) + l2norm g / zero_debias_factor s
  ∧ (grad_variance s g ga gas).2.2 = (grad_variance s g ga gas').2.2 :=
  ⟨rfl, rfl, rfl, rfl⟩

/-- Claim C8: `zero_debias_factor` returns exactly 1 when `zero_bias` is set
(the constructor default), and `1 - beta^(step_count+1)` otherwise. -/
theorem C8_zero_debias_factor_cases (s : YF) :
    (s.zero_bias = true → zero_debias_factor s = 1)
  ∧ (s.zero_bias = false → zero_debias_factor s = 1 - s.beta ^ (s.iter + 1)) := by
  constructor
  · intro h; rw [zero_debias_factor, if_pos h]
  · intro h; rw [zero_debias_factor, if_neg (by simp [h])]

theorem C8_zero_debias_factor_witness :
    zero_debias_factor s0c = 1
  ∧ zero_debias_factor { s0c with zero_bias := false, iter := 2 } = 1 - (1/2 : ℝ) ^ 3 := by
  constructor
  · exact (C8_zero_debias_factor_cases s0c).1 rfl
  · rw [(C8_zero_debias_factor_cases { s0c with zero_bias := false, iter := 2 }).2 rfl]
    norm_num [s0c, initYF]

/-- Claim C9: on the no-momentum-state path, `update` performs the plain SGD
weight update with the current `base_lr * lr_mult` and skips the whole tuning
pipeline: the returned global state is the input state with only `iter`
incremented, so `momentum` (the momentum scalar) and `lr_mult` — and every
statistics field — are unchanged. -/
theorem C9_no_state_plain_sgd (s : YF) (w g : Vec) (roots : List ℂ) :
    update s w g none roots =
      .ok ({ s with iter := s.iter + 1 },
           List.zipWith (fun wt e => wt - (s.base_lr * s.lr_mult) * e
               - (s.base_lr * s.lr_mult) * s.wd * wt) w (effGrad s g),
           none)
  ∧ ({ s with iter := s.iter + 1 }).momentum = s.momentum
  ∧ ({ s with iter := s.iter + 1 }).lr_mult = s.lr_mult
  ∧ ({ s with iter := s.iter + 1 }).h_window = s.h_window
  ∧ ({ s with iter := s.iter + 1 }).h_min = s.h_min
  ∧ ({ s with iter := s.iter + 1 }).h_max = s.h_max
  ∧ ({ s with iter := s.iter + 1 }).grad_norm_avg = s.grad_norm_avg
  ∧ ({ s with iter := s.iter + 1 }).h_avg = s.h_avg
  ∧ ({ s with iter := s.iter + 1 }).dist_to_opt_avg = s.dist_to_opt_avg :=
  ⟨rfl, rfl, rfl, rfl, rfl, rfl, rfl, rfl, rfl⟩

/-- Claim C4 (code bug): the constructor hardcodes the window-width attribute
to 20 (ignoring the configured `curv_win_width`) while allocating the window
with the configured width.  With `curv_win_width = 10`, the update with step
counter 10 writes at index `10 % 20 = 10`, out of bounds for the length-10
window — numpy raises `IndexError` instead of wrapping at `step mod W`. -/
theorem C4_window_width_bug :
    (initYF 0 (1/2) 10 true 1 0 1 none).curv_win_width = 20
  ∧ (initYF 0 (1/2) 10 true 1 0 1 none).h_window.length = 10
  ∧ curvature_range { initYF 0 (1/2) 10 true 1 0 1 none with iter := 10 } [1]
      = .error .indexError := by
  refine ⟨rfl, by simp [initYF], ?_⟩
  simp only [curvature_range]
  rw [if_neg (by norm_num [initYF])]

/-- Claim C5: with the unique surviving root `z`, the solver returns
`mu = max(real(z)^2, ((sqrt(dr)-1)/(sqrt(dr)+1))^2)` with `dr = h_max/h_min`
and `lr = (1-sqrt(mu))^2/h_min`; and the coefficient of `x` in the cubic is
`-(3 + D^2*h_min^2/(2*C))`. -/
theorem C5_solver_formulas (C D h_min h_max : ℝ) (roots : List ℂ) (z : ℂ)
    (h : codeSurvivors roots = [z]) :
    coef2 C D h_min = -(3 + D ^ 2 * h_min ^ 2 / (2 * C))
  ∧ single_step_mu_lr C D h_min h_max roots =
      .ok (max (z.re ^ 2)
             (((Real.sqrt (h_max / h_min) - 1) / (Real.sqrt (h_max / h_min) + 1)) ^ 2),
           (1 - Real.sqrt (max (z.re ^ 2)
             (((Real.sqrt (h_max / h_min) - 1) / (Real.sqrt (h_max / h_min) + 1)) ^ 2))) ^ 2
             / h_min) := by
  constructor
  · rw [coef2]; ring
  · rw [single_step_mu_lr, h]

theorem C5_solver_formulas_witness :
    single_step_mu_lr 50 1 1 1 R0c =
      .ok (max (((⟨4/5, 0⟩ : ℂ)).re ^ 2)
             (((Real.sqrt ((1:ℝ) / 1) - 1) / (Real.sqrt ((1:ℝ) / 1) + 1)) ^ 2),
           (1 - Real.sqrt (max (((⟨4/5, 0⟩ : ℂ)).re ^ 2)
             (((Real.sqrt ((1:ℝ) / 1) - 1) / (Real.sqrt ((1:ℝ) / 1) + 1)) ^ 2))) ^ 2 / 1) :=
  (C5_solver_formulas 50 1 1 1 R0c ⟨4/5, 0⟩ survR0c).2

/-! ### Claim C1: the root filter uses a signed imaginary-part comparison -/

/-- The exact roots of the cubic for `C = -1, D = 1, h_min = 1`
(`coef2 = -5/2`): one real root `2` and the conjugate pair `1/2 ± (1/2)i`. -/
noncomputable def Rbadc : List ℂ := [⟨2, 0⟩, ⟨1/2, 1/2⟩, ⟨1/2, -1/2⟩]

lemma sqrt_1_4 : Real.sqrt (1/4) = 1/2 := by
  rw [show (1/4 : ℝ) = (1/2)^2 by norm_num, Real.sqrt_sq (by norm_num)]

lemma rootsBad : isRootListOf (coef2 (-1) 1 1) Rbadc := by
  refine ⟨⟨2, 0⟩, ⟨1/2, 1/2⟩, ⟨1/2, -1/2⟩, rfl, fun x => ?_⟩
  have hc : coef2 (-1) 1 1 = -5/2 := by rw [coef2]; norm_num
  have h0 : ((⟨2, 0⟩ : ℂ)) = 2 := by apply Complex.ext <;> simp
  have h1 : ((⟨1/2, 1/2⟩ : ℂ)) = (1/2 : ℝ) + (1/2 : ℝ) * Complex.I := by
    apply Complex.ext <;> simp
  have h2 : ((⟨1/2, -1/2⟩ : ℂ)) = (1/2 : ℝ) + (-1/2 : ℝ) * Complex.I := by
    apply Complex.ext <;> simp
  rw [cubicEval, hc, h0, h1, h2]
  have hI : (Complex.I) ^ 2 = -1 := Complex.I_sq
  push_cast
  linear_combination (-(x - 2)) * (1/4 : ℂ) * hI

lemma survRbad : codeSurvivors Rbadc = [⟨1/2, -1/2⟩] := by
  simp only [Rbadc, codeSurvivors]
  rw [if_neg (show ¬ survivorCond ⟨2, 0⟩ by norm_num [survivorCond]),
      if_neg (show ¬ survivorCond ⟨1/2, 1/2⟩ by norm_num [survivorCond]),
      if_pos (show survivorCond ⟨1/2, -1/2⟩ by norm_num [survivorCond])]

lemma solveRbad : single_step_mu_lr (-1) 1 1 1 Rbadc = .ok (1/4, 1/4) := by
  have hre : ((⟨1/2, -1/2⟩ : ℂ)).re = 1/2 := rfl
  have hdr : (1 : ℝ) / 1 = 1 := by norm_num
  have hmu : max ((1/2 : ℝ) ^ 2) (((Real.sqrt 1 - 1) / (Real.sqrt 1 + 1)) ^ 2) = 1/4 := by
    rw [Real.sqrt_one, max_eq_left (by norm_num)]
    norm_num
  have hlr : ((1 : ℝ) - Real.sqrt (1/4)) ^ 2 / 1 = 1/4 := by
    rw [sqrt_1_4]; norm_num
  rw [single_step_mu_lr, survRbad]
  simp only [hdr, hre, hmu, hlr]

lemma abs_half : |(1/2 : ℝ)| = 1/2 := abs_of_pos (by norm_num)

/-- Claim C1 counterexample: for the solver input
`C = -1, D = 1, h_min = h_max = 1` (negative `C` is reachable, since
`grad_variance` can return a negative value), the exact roots of the cubic are
`2` and `1/2 ± (1/2)i`; the root `1/2 - (1/2)i` survives the source filter
although its imaginary part has absolute value `1/2 ≥ 1e-5`, and the solver
returns `(1/4, 1/4)` instead of signalling the error that the claimed
`|imag| < 1e-5` filter (zero survivors) would require. -/
theorem C1_counterexample :
    isRootListOf (coef2 (-1) 1 1) Rbadc
  ∧ codeSurvivors Rbadc = [⟨1/2, -1/2⟩]
  ∧ ¬ |((⟨1/2, -1/2⟩ : ℂ)).im| < 1e-5
  ∧ single_step_mu_lr (-1) 1 1 1 Rbadc = .ok (1/4, 1/4) := by
  refine ⟨rootsBad, survRbad, ?_, solveRbad⟩
  rw [show ((⟨1/2, -1/2⟩ : ℂ)).im = -1/2 from rfl]
  norm_num [abs_neg, abs_half]

/-- Claim C1 (amended): the surviving candidates are exactly the roots with
real part in the open interval (0,1) and signed imaginary part (no absolute
value) less than 1e-5; whenever the number of survivors differs from 1 the
solver fails with the root-count error (`assert root.size == 1`, the spec's
`NumericalInstabilityError`) instead of returning a value. -/
theorem C1_filter_behavior (C D h_min h_max : ℝ) (roots : List ℂ) :
    (∀ z : ℂ, z ∈ codeSurvivors roots ↔
        z ∈ roots ∧ 0 < z.re ∧ z.re < 1 ∧ z.im < 1e-5)
  ∧ ((codeSurvivors roots).length ≠ 1 →
        single_step_mu_lr C D h_min h_max roots = .error .numericalInstability) := by
  constructor
  · intro z; exact mem_codeSurvivors
  · intro hlen
    rw [single_step_mu_lr]
    rcases hs : codeSurvivors roots with _ | ⟨z, _ | ⟨z2, t⟩⟩
    · rfl
    · exact absurd (show (codeSurvivors roots).length = 1 by rw [hs]; rfl) hlen
    · rfl

theorem C1_filter_behavior_witness :
    ((⟨1/2, -1/2⟩ : ℂ) ∈ codeSurvivors Rbadc
      ∧ ((⟨1/2, -1/2⟩ : ℂ)).im < 1e-5 ∧ ¬ |((⟨1/2, -1/2⟩ : ℂ)).im| < 1e-5)
  ∧ single_step_mu_lr 1 1 1 1 [⟨2, 0⟩] = .error .numericalInstability := by
  refine ⟨⟨?_, by norm_num [show ((⟨1/2, -1/2⟩ : ℂ)).im = -1/2 from rfl],
      by norm_num [show ((⟨1/2, -1/2⟩ : ℂ)).im = -1/2 from rfl, abs_neg, abs_half]⟩, ?_⟩
  · exact ((C1_filter_behavior 1 1 1 1 Rbadc).1 ⟨1/2, -1/2⟩).mpr
      ⟨by simp [Rbadc], by norm_num, by norm_num,
       by norm_num [show ((⟨1/2, -1/2⟩ : ℂ)).im = -1/2 from rfl]⟩
  · apply (C1_filter_behavior 1 1 1 1 [⟨2, 0⟩]).2
    rw [show codeSurvivors [⟨2, 0⟩] = [] from by
      simp only [codeSurvivors]
      rw [if_neg (show ¬ survivorCond ⟨2, 0⟩ by norm_num [survivorCond])]]
    norm_num

/-! ### Claim C3: behavior of the solver at `h_min = 0` -/

lemma coef2_hmin_zero (C D : ℝ) : coef2 C D 0 = -3 := by
  rw [coef2]; norm_num

lemma notSurvivorOne : ¬ survivorCond 1 := by
  norm_num [survivorCond, Complex.one_re]

lemma survOnes : codeSurvivors [(1 : ℂ), 1, 1] = [] := by
  simp [codeSurvivors, notSurvivorOne]

lemma rootsOnes : isRootListOf (coef2 1 1 0) [(1 : ℂ), 1, 1] := by
  refine ⟨1, 1, 1, rfl, fun x => ?_⟩
  rw [cubicEval, coef2_hmin_zero]
  push_cast
  ring

/-- Claim C3 counterexample: calling the solver with `h_min = 0` (here
`C = 1, D = 1, h_max = 1`, with the exact roots of the degenerate cubic —
a triple root at 1) produces the root-count error
(`NumericalInstabilityError` / source `AssertionError`), not the claimed
`DegenerateCurvatureError`: no `h_min == 0` guard exists in the source. -/
theorem C3_counterexample :
    isRootListOf (coef2 1 1 0) [(1 : ℂ), 1, 1]
  ∧ single_step_mu_lr 1 1 0 1 [(1 : ℂ), 1, 1] = .error .numericalInstability
  ∧ single_step_mu_lr 1 1 0 1 [(1 : ℂ), 1, 1] ≠ .error .degenerateCurvature := by
  have heval : single_step_mu_lr 1 1 0 1 [(1 : ℂ), 1, 1] = .error .numericalInstability := by
    rw [single_step_mu_lr, survOnes]
  refine ⟨rootsOnes, heval, ?_⟩
  rw [heval]
  intro hcontra
  injection hcontra with h2
  exact absurd h2 (by decide)

/-- Claim C3 (amended): when the solver is invoked with `h_min = 0` (and
`C ≠ 0`, so the Python coefficient computation goes through), the cubic
degenerates to `-(x-1)^3`: its root list is a triple root at 1, no root
survives the filter (the real part is not `< 1`), and the solver fails with
the root-count error before the division `h_max / h_min` is ever reached.
The solver is a pure function of its arguments, so no global tuning state is
touched on this path (the state is only written by `after_apply` after a
successful solve). -/
theorem C3_hmin_zero_behavior (C D h_max : ℝ) (roots : List ℂ)
    (_hC : C ≠ 0) (hroots : isRootListOf (coef2 C D 0) roots) :
    single_step_mu_lr C D 0 h_max roots = .error .numericalInstability := by
  obtain ⟨z₁, z₂, z₃, rfl, hid⟩ := hroots
  rw [coef2_hmin_zero] at hid
  have e1 : (z₁ - 1) ^ 3 = 0 := by
    have h := hid z₁
    rw [cubicEval] at h
    push_cast at h
    linear_combination -h
  have e2 : (z₂ - 1) ^ 3 = 0 := by
    have h := hid z₂
    rw [cubicEval] at h
    push_cast at h
    linear_combination -h
  have e3 : (z₃ - 1) ^ 3 = 0 := by
    have h := hid z₃
    rw [cubicEval] at h
    push_cast at h
    linear_combination -h
  have h1 : z₁ = 1 := sub_eq_zero.mp ((pow_eq_zero_iff (by norm_num : 3 ≠ 0)).mp e1)
  have h2 : z₂ = 1 := sub_eq_zero.mp ((pow_eq_zero_iff (by norm_num : 3 ≠ 0)).mp e2)
  have h3 : z₃ = 1 := sub_eq_zero.mp ((pow_eq_zero_iff (by norm_num : 3 ≠ 0)).mp e3)
  subst h1; subst h2; subst h3
  rw [single_step_mu_lr, survOnes]

theorem C3_hmin_zero_behavior_witness :
    single_step_mu_lr 1 1 0 1 [(1 : ℂ), 1, 1] = .error .numericalInstability :=
  C3_hmin_zero_behavior 1 1 1 [(1 : ℂ), 1, 1] one_ne_zero rootsOnes

/-! ### Claim C10: range of the returned momentum and learning rate -/

/-- Claim C10: with `0 < h_min ≤ h_max`, `C > 0` and exactly one surviving
root, the returned momentum lies in `[0, 1)` (both the squared real part of
the surviving root and the heavy-ball term are below 1) and the returned
learning rate is strictly positive. -/
theorem C10_mu_lr_range (C D h_min h_max : ℝ) (roots : List ℂ) (z : ℂ) (mu lr : ℝ)
    (hmin : 0 < h_min) (hmm : h_min ≤ h_max) (_hC : 0 < C)
    (hz : codeSurvivors roots = [z])
    (hres : single_step_mu_lr C D h_min h_max roots = .ok (mu, lr)) :
    0 ≤ mu ∧ mu < 1 ∧ 0 < lr := by
  have hcond : survivorCond z :=
    (mem_codeSurvivors.mp (by rw [hz]; exact List.mem_singleton.mpr rfl)).2
  obtain ⟨hre0, hre1, _him⟩ := hcond
  rw [single_step_mu_lr, hz] at hres
  injection hres with hpair
  injection hpair with hmu hlr
  have hq1 : (1 : ℝ) ≤ Real.sqrt (h_max / h_min) := by
    rw [← Real.sqrt_one]
    exact Real.sqrt_le_sqrt ((one_le_div hmin).mpr hmm)
  have hratio0 : 0 ≤ (Real.sqrt (h_max / h_min) - 1) / (Real.sqrt (h_max / h_min) + 1) :=
    div_nonneg (by linarith) (by linarith)
  have hratio1 : (Real.sqrt (h_max / h_min) - 1) / (Real.sqrt (h_max / h_min) + 1) < 1 :=
    (div_lt_one (by linarith)).mpr (by linarith)
  have hb1 : ((Real.sqrt (h_max / h_min) - 1) / (Real.sqrt (h_max / h_min) + 1)) ^ 2 < 1 :=
    pow_lt_one₀ hratio0 hratio1 (by norm_num)
  have hz1 : z.re ^ 2 < 1 := pow_lt_one₀ (le_of_lt hre0) hre1 (by norm_num)
  have hmu0 : 0 ≤ mu := by
    rw [← hmu]; exact le_trans (sq_nonneg z.re) (le_max_left _ _)
  have hmu1 : mu < 1 := by
    rw [← hmu]; exact max_lt hz1 hb1
  refine ⟨hmu0, hmu1, ?_⟩
  have hsq : Real.sqrt mu < 1 := by
    rw [← Real.sqrt_one]
    exact Real.sqrt_lt_sqrt hmu0 hmu1
  have hpos : 0 < (1 - Real.sqrt mu) ^ 2 := pow_pos (by linarith) 2
  rw [← hlr, hmu]
  exact div_pos hpos hmin

lemma solveEval50 : single_step_mu_lr 50 1 1 1 R0c = .ok (16/25, 1/25) := by
  have hre : ((⟨4/5, 0⟩ : ℂ)).re = 4/5 := rfl
  have hdr : (1 : ℝ) / 1 = 1 := by norm_num
  have hmu : max ((4/5 : ℝ) ^ 2) (((Real.sqrt 1 - 1) / (Real.sqrt 1 + 1)) ^ 2) = 16/25 := by
    rw [Real.sqrt_one, max_eq_left (by norm_num)]
    norm_num
  have hlr : ((1 : ℝ) - Real.sqrt (16/25)) ^ 2 / 1 = 1/25 := by
    rw [sqrt_16_25]; norm_num
  rw [single_step_mu_lr, survR0c]
  simp only [hdr, hre, hmu, hlr]

theorem C10_mu_lr_range_witness :
    ∃ mu lr, single_step_mu_lr 50 1 1 1 R0c = .ok (mu, lr)
      ∧ 0 ≤ mu ∧ mu < 1 ∧ 0 < lr :=
  ⟨16/25, 1/25, solveEval50,
   C10_mu_lr_range 50 1 1 1 R0c ⟨4/5, 0⟩ (16/25) (1/25)
     (by norm_num) (by norm_num) (by norm_num) survR0c solveEval50⟩

/-! ### Claim C6: `h_min <= h_max` is preserved by every update -/

lemma foldl_min_le_foldl_max : ∀ (xs : Vec) (a b : ℝ), a ≤ b →
    xs.foldl min a ≤ xs.foldl max b
  | [], _, _, h => h
  | y :: ys, a, b, h =>
    foldl_min_le_foldl_max ys (min a y) (max b y)
      (le_trans (min_le_left a y) (le_trans h (le_max_left b y)))

lemma listMin_le_listMax : ∀ l : Vec, listMin l ≤ listMax l
  | [] => le_refl 0
  | x :: xs => foldl_min_le_foldl_max xs x x (le_refl x)

lemma curvature_range_inv (s : YF) (g : Vec) (t : YF × ℝ × ℝ)
    (h : curvature_range s g = .ok t) :
    t.1.beta = s.beta ∧ t.1.iter = s.iter ∧
    (0 ≤ s.beta → s.beta ≤ 1 → s.h_min ≤ s.h_max → t.1.h_min ≤ t.1.h_max) := by
  simp only [curvature_range] at h
  by_cases hi : s.iter % s.curv_win_width < s.h_window.length
  · rw [if_pos hi] at h
    injection h with h'
    subst h'
    refine ⟨rfl, rfl, fun hb0 hb1 hm => ?_⟩
    show s.beta * s.h_min + (1 - s.beta) * listMin _ ≤
         s.beta * s.h_max + (1 - s.beta) * listMax _
    exact add_le_add (mul_le_mul_of_nonneg_left hm hb0)
      (mul_le_mul_of_nonneg_left (listMin_le_listMax _) (by linarith))
  · rw [if_neg hi] at h
    exact Except.noConfusion h

lemma after_apply_inv (s : YF) (g ga gas : Vec) (lr mom : ℝ) (roots : List ℂ)
    (out : YF × Vec × Vec) (h : after_apply s g ga gas lr mom roots = .ok out) :
    out.1.beta = s.beta ∧
    (0 ≤ s.beta → s.beta ≤ 1 → s.h_min ≤ s.h_max → out.1.h_min ≤ out.1.h_max) := by
  simp only [after_apply] at h
  cases hc : curvature_range s g with
  | error e => simp only [hc] at h; exact Except.noConfusion h
  | ok t =>
    obtain ⟨s1, hmn, hmx⟩ := t
    simp only [hc] at h
    cases hsol : single_step_mu_lr (grad_variance s1 g ga gas).2.2
        (dist_to_opt s1 g).2 hmn hmx roots with
    | error e => simp only [hsol] at h; exact Except.noConfusion h
    | ok v =>
      obtain ⟨mu, lrt⟩ := v
      simp only [hsol] at h
      injection h with h'
      subst h'
      have hci := curvature_range_inv s g (s1, hmn, hmx) hc
      exact ⟨hci.1, fun hb0 hb1 hm => hci.2.2 hb0 hb1 hm⟩

lemma update_inv (s : YF) (w g : Vec) (p : Option PState) (roots : List ℂ)
    (out : YF × Vec × Option PState) (h : update s w g p roots = .ok out) :
    out.1.beta = s.beta ∧
    (0 ≤ s.beta → s.beta ≤ 1 → s.h_min ≤ s.h_max → out.1.h_min ≤ out.1.h_max) := by
  cases p with
  | none =>
    simp only [update] at h
    injection h with h'
    subst h'
    exact ⟨rfl, fun _ _ hm => hm⟩
  | some ps =>
    simp only [update] at h
    cases hA : after_apply s g ps.grad_avg ps.grad_avg_squared
        (s.base_lr * s.lr_mult) s.momentum roots with
    | error e => simp only [hA] at h; exact Except.noConfusion h
    | ok t =>
      obtain ⟨s1, ga, gas⟩ := t
      simp only [hA] at h
      injection h with h'
      subst h'
      have hai := after_apply_inv s g ps.grad_avg ps.grad_avg_squared
        (s.base_lr * s.lr_mult) s.momentum roots (s1, ga, gas) hA
      exact ⟨hai.1, fun hb0 hb1 hm => hai.2 hb0 hb1 hm⟩

/-- Claim C6: for every gradient/roots sequence, every completed run of
`update` steps preserves `h_min_ema ≤ h_max_ema` (given `0 ≤ beta ≤ 1` and
the invariant at the start; the freshly constructed optimizer has
`h_min = h_max = 0`).  The order holds by construction of the min/max EMA
updates — there is no clamping anywhere in the code. -/
theorem C6_hmin_le_hmax_run : ∀ (l : List (Vec × List ℂ)) (s : YF) (w : Vec)
    (p : Option PState) (out : YF × Vec × Option PState),
    0 ≤ s.beta → s.beta ≤ 1 → s.h_min ≤ s.h_max →
    runUpdates s w p l = .ok out → out.1.h_min ≤ out.1.h_max
  | [], s, w, p, out, _, _, hm, h => by
    simp only [runUpdates] at h
    injection h with h'
    subst h'
    exact hm
  | (g, r) :: rest, s, w, p, out, hb0, hb1, hm, h => by
    simp only [runUpdates] at h
    cases hu : update s w g p r with
    | error e => simp only [hu] at h; exact Except.noConfusion h
    | ok t =>
      obtain ⟨s', w', p'⟩ := t
      simp only [hu] at h
      have hi := update_inv s w g p r (s', w', p') hu
      exact C6_hmin_le_hmax_run rest s' w' p' out
        (by rw [hi.1]; exact hb0) (by rw [hi.1]; exact hb1)
        (hi.2 hb0 hb1 hm) h

lemma runEval1 :
    runUpdates s0c [1] (some p0c) [([8/27], R0c)] =
      .ok (s1c, [19/27],
           some { mom := [8/27], grad_avg := [4/27], grad_avg_squared := [32/729] }) := by
  simp only [runUpdates, updateEval1]

theorem C6_hmin_le_hmax_run_witness : s1c.h_min ≤ s1c.h_max :=
  C6_hmin_le_hmax_run [([8/27], R0c)] s0c [1] (some p0c)
    (s1c, [19/27],
     some { mom := [8/27], grad_avg := [4/27], grad_avg_squared := [32/729] })
    (by norm_num [s0c, initYF]) (by norm_num [s0c, initYF])
    (by norm_num [s0c, initYF]) runEval1

/-! ### Claim C7: per-step ordering with a momentum state -/

/-- Claim C7: on an `update` call with a momentum state, the weight and
momentum buffer are computed first from the previously tuned values (the old
learning rate `base_lr * lr_mult` and the old momentum scalar); the
curvature/variance/distance statistics and the solver consume this step's
gradient afterwards; the tuned values are blended as
`momentum := beta*momentum + (1-beta)*mu_t` and
`lr_mult := beta*lr + (1-beta)*lr_t` (so they take effect only from the next
step, the weight update having already been done with the old values); and
the step counter is incremented last, by exactly one. -/
theorem C7_update_ordering (s : YF) (w g : Vec) (ps : PState) (roots : List ℂ)
    (out : YF × Vec × Option PState)
    (hm : 0 ≤ s.momentum)
    (h : update s w g (some ps) roots = .ok out) :
    out.1.iter = s.iter + 1
  ∧ out.2.1 = (sgd_mom_update s w g ps.mom (s.base_lr * s.lr_mult) s.momentum).1
  ∧ ∃ s1 hmn hmx, curvature_range s g = .ok (s1, hmn, hmx)
      ∧ ∃ mu lr, single_step_mu_lr (grad_variance s1 g ps.grad_avg ps.grad_avg_squared).2.2
            (dist_to_opt s1 g).2 hmn hmx roots = .ok (mu, lr)
        ∧ out.1.momentum = s.beta * s.momentum + (1 - s.beta) * mu
        ∧ out.1.lr_mult = s.beta * (s.base_lr * s.lr_mult) + (1 - s.beta) * lr
        ∧ out.2.2 = some
            { mom := (sgd_mom_update s w g ps.mom (s.base_lr * s.lr_mult) s.momentum).2,
              grad_avg := (grad_variance s1 g ps.grad_avg ps.grad_avg_squared).1,
              grad_avg_squared :=
                (grad_variance s1 g ps.grad_avg ps.grad_avg_squared).2.1 } := by
  have hkw : (if 0 < s.momentum then s.momentum else 0) = s.momentum := by
    rcases eq_or_lt_of_le hm with h0 | h0
    · rw [if_neg (by rw [← h0]; exact lt_irrefl 0), ← h0]
    · rw [if_pos h0]
  simp only [update, hkw] at h
  cases hA : after_apply s g ps.grad_avg ps.grad_avg_squared
      (s.base_lr * s.lr_mult) s.momentum roots with
  | error e => simp only [hA] at h; exact Except.noConfusion h
  | ok t =>
    obtain ⟨s1a, ga, gas⟩ := t
    simp only [hA] at h
    injection h with h'
    subst h'
    simp only [after_apply] at hA
    cases hc : curvature_range s g with
    | error e => simp only [hc] at hA; exact Except.noConfusion hA
    | ok t2 =>
      obtain ⟨s1, hmn, hmx⟩ := t2
      simp only [hc] at hA
      cases hsol : single_step_mu_lr (grad_variance s1 g ps.grad_avg ps.grad_avg_squared).2.2
          (dist_to_opt s1 g).2 hmn hmx roots with
      | error e => simp only [hsol] at hA; exact Except.noConfusion hA
      | ok v =>
        obtain ⟨mu, lrt⟩ := v
        simp only [hsol] at hA
        injection hA with hA'
        injection hA' with hA1 hA23
        injection hA23 with hA2 hA3
        subst hA1; subst hA2; subst hA3
        have hci := curvature_range_inv s g (s1, hmn, hmx) hc
        have hbeta : s1.beta = s.beta := hci.1
        have hit : s1.iter = s.iter := hci.2.1
        refine ⟨?_, rfl, s1, hmn, hmx, rfl, mu, lrt, hsol, ?_, ?_, rfl⟩
        · show s1.iter + 1 = s.iter + 1
          rw [hit]
        · show s1.beta * s.momentum + (1 - s1.beta) * mu
            = s.beta * s.momentum + (1 - s.beta) * mu
          rw [hbeta]
        · show s1.beta * (s.base_lr * s.lr_mult) + (1 - s1.beta) * lrt
            = s.beta * (s.base_lr * s.lr_mult) + (1 - s.beta) * lrt
          rw [hbeta]

theorem C7_update_ordering_witness :
    s1c.iter = s0c.iter + 1
  ∧ [(19/27 : ℝ)] =
      (sgd_mom_update s0c [1] [8/27] p0c.mom (s0c.base_lr * s0c.lr_mult) s0c.momentum).1 := by
  have h := C7_update_ordering s0c [1] [8/27] p0c R0c
    (s1c, [19/27],
     some { mom := [8/27], grad_avg := [4/27], grad_avg_squared := [32/729] })
    (by norm_num [s0c, initYF]) updateEval1
  exact ⟨h.1, h.2.1⟩
